import Mathlib

/-
Verification of the Telegram trading bot (auto_bot.py): a shallow embedding
of the bot's decision logic, with proofs of the specified properties.

Modelling conventions:
- Python dicts become insertion-ordered association lists with string keys.
- Python floats become exact rationals; round(x, 2) becomes exact rounding
  to hundredths.
- Effectful reads become explicit parameters: the yfinance fetch is a
  function String → Option ℚ (none models both an empty frame and a raised
  request error, the two cases caught by the per-ticker except branch),
  file contents are explicit values, and the wall clock is an explicit
  argument (a timestamp string for the formatter, a (date, hour, minute)
  observation trace for the poller loop).
-/

namespace AutoBot

/-- Python dict with string keys: an insertion-ordered association list. -/
abbrev Dict (α : Type) : Type := List (String × α)

/-- Python dict lookup: d.get(k) (and d[k] when the key is present). -/
def dictGet {α : Type} : Dict α → String → Option α
  | [], _ => none
  | (k, v) :: rest, key => if k = key then some v else dictGet rest key

/-- Python dict assignment d[k] = v: update in place when the key exists,
append at the end otherwise (insertion order preserved, as in Python). -/
def dictSet {α : Type} : Dict α → String → α → Dict α
  | [], key, v => [(key, v)]
  | (k, w) :: rest, key, v =>
      if k = key then (key, v) :: rest else (k, w) :: dictSet rest key v

/-- Python s.lower(), as the character-wise Char.toLower. -/
def strLower (s : String) : String := String.mk (s.data.map Char.toLower)

/-- Python substring containment `pat in s`, on character lists: some
suffix of s starts with pat. -/
def listContains (pat : List Char) : List Char → Bool
  | [] => pat.isEmpty
  | c :: rest => pat.isPrefixOf (c :: rest) || listContains pat rest

/-- Python `pat in s` on strings. -/
def strContains (s pat : String) : Bool := listContains pat.data s.data

/-- Python s.startswith(pre). -/
def strStartsWith (s pre : String) : Bool := pre.data.isPrefixOf s.data

/-- Python s.replace(pat, rep), fuelled so that the recursion is
structural: replace non-overlapping occurrences from the left.  The fuel
is consumed one character per step and never runs out when it starts at
the length of the string. -/
def replaceFuel (pat rep : List Char) : ℕ → List Char → List Char
  | 0, s => s
  | fuel + 1, s =>
      if pat ≠ [] ∧ pat.isPrefixOf s then
        rep ++ replaceFuel pat rep fuel (s.drop pat.length)
      else
        match s with
        | [] => []
        | c :: rest => c :: replaceFuel pat rep fuel rest

/-- Python s.replace(pat, rep) on strings (for the nonempty patterns the
bot uses). -/
def strReplace (s pat rep : String) : String :=
  String.mk (replaceFuel pat.data rep.data s.data.length s.data)

/-- The integer number of cents nearest to a rational price (ties round
up): the value of round(x, 2) in hundredths. -/
def cents2 (q : ℚ) : ℤ := (200 * q.num + (q.den : ℤ)).fdiv (2 * (q.den : ℤ))

/-- Python round(x, 2), embedded on exact rationals (binary floating-point
representation and its banker's tie-breaking are abstracted to exact
rounding to hundredths). -/
def round2 (q : ℚ) : ℚ := mkRat (cents2 q) 100

-- ========================
-- Market tickers (auto_bot.py lines 51-57)
-- ========================

/-- TICKERS: the configured instruments, in source order. -/
def TICKERS : Dict String :=
  [("BTC", "BTC-USD"), ("ETH", "ETH-USD"), ("BNB", "BNB-USD"),
   ("SOL", "SOL-USD"), ("XAU", "GC=F")]

/-- The bot's price state: the in-memory last_prices dict and the contents
of the prices.json file. -/
structure BotFiles where
  lastPrices : Dict ℚ
  pricesFile : Dict ℚ
deriving DecidableEq

/-- save_last_prices (lines 69-71): overwrite prices.json with the given
dict. -/
def save_last_prices (prices : Dict ℚ) (st : BotFiles) : BotFiles :=
  { st with pricesFile := prices }

/-- Arrow logic of get_market_prices (lines 100-104): the trend indicator
relative to the stored last price, if any ("➡️" doubles as the first-seen
indicator). -/
def arrowFor (old : Option ℚ) (current : ℚ) : String :=
  match old with
  | none => " ➡️"
  | some last =>
      if current > last then " 🔼" else if current < last then " 🔽" else " ➡️"

/-- Body of the per-ticker loop of get_market_prices (lines 93-110).  The
accumulator is (prices, last_prices); a successful fetch rounds the close,
derives the arrow from the stored last price, and stores the new price; a
failed fetch (empty frame or request error, both caught by the except
branch) records the (None, "❓") sentinel and leaves last_prices alone. -/
def processTicker (fetch : String → Option ℚ)
    (acc : Dict (Option ℚ × String) × Dict ℚ) (nt : String × String) :
    Dict (Option ℚ × String) × Dict ℚ :=
  match fetch nt.2 with
  | some close =>
      let current := round2 close
      let arrow := arrowFor (dictGet acc.2 nt.1) current
      (dictSet acc.1 nt.1 (some current, arrow), dictSet acc.2 nt.1 current)
  | none => (dictSet acc.1 nt.1 (none, " ❓"), acc.2)

/-- get_market_prices (lines 90-112): process every ticker, then save the
updated last_prices wholesale to prices.json; returns the prices batch and
the updated state. -/
def get_market_prices (fetch : String → Option ℚ) (st : BotFiles) :
    Dict (Option ℚ × String) × BotFiles :=
  let r := TICKERS.foldl (processTicker fetch) ([], st.lastPrices)
  (r.1, save_last_prices r.2 { st with lastPrices := r.2 })

-- ========================
-- Responses file (lines 34-46, 78-85, 165-168)
-- ========================

/-- A JSON file on disk, as seen by json.load: missing, present but
unparseable, or parsed content. -/
inductive JsonFile (α : Type) where
  | missing : JsonFile α
  | corrupt : JsonFile α
  | ok : α → JsonFile α
deriving DecidableEq

/-- default_responses (lines 35-40), written at startup when
responses.json does not exist. -/
def default_responses : Dict String :=
  [("hello", "👋 Welcome to our Trading Group! Type 'help' for commands."),
   ("help", "📌 Commands:\n- /price: Check live prices\n- deposit: How to deposit funds\n- withdraw: Withdrawal guide"),
   ("_welcome", "👋 Welcome {name} to our Trading Group!"),
   ("_reload_success", "🔄 Responses reloaded successfully!")]

/-- Startup block "Ensure JSON files exist" (lines 34-42): the defaults
are written only when the file does not exist; a corrupt file exists, so
it is left untouched. -/
def ensure_responses_file : JsonFile (Dict String) → JsonFile (Dict String)
  | .missing => .ok default_responses
  | f => f

/-- load_responses (lines 78-83): parse responses.json, returning {} on
any error (missing or unparseable file). -/
def load_responses : JsonFile (Dict String) → Dict String
  | .ok d => d
  | _ => []

/-- reload_responses handler (lines 165-168): reassign the global
responses from disk, ignoring the previous table, and reply with the
(freshly loaded) _reload_success template. -/
def reload_responses (_responses : Dict String)
    (file : JsonFile (Dict String)) : Dict String × String :=
  let r := load_responses file
  (r, match dictGet r "_reload_success" with
      | some s => s
      | none => "Reloaded!")

-- ========================
-- auto_reply dispatcher (lines 137-149)
-- ========================

/-- The observable action of auto_reply on a text message: produce the
price report, send a canned keyword reply, or stay silent (none). -/
inductive ReplyAction where
  | priceReport : ReplyAction
  | keywordReply : String → ReplyAction
deriving DecidableEq

/-- Keyword scan of auto_reply (lines 144-149): walk the response table in
order, skip reserved keys (underscore prefix), and reply with the first
key contained verbatim in the lowered message. -/
def scanResponses : Dict String → String → Option ReplyAction
  | [], _ => none
  | (keyword, reply) :: rest, msg =>
      if strStartsWith keyword "_" then scanResponses rest msg
      else if strContains msg keyword then some (.keywordReply reply)
      else scanResponses rest msg

/-- auto_reply (lines 137-149) on a present text message: lower the text,
give priority to the price report, else run the keyword scan. -/
def auto_reply (responses : Dict String) (text : String) : Option ReplyAction :=
  let msg := strLower text
  if strContains msg "price" || strStartsWith msg "/price" then some .priceReport
  else scanResponses responses msg

/-- Keyword scan as the spec words it (claim C3), for comparison with
scanResponses: a case-insensitive substring scan, i.e. the key is lowered
as well as the message. -/
def scanResponses_spec : Dict String → String → Option ReplyAction
  | [], _ => none
  | (keyword, reply) :: rest, msg =>
      if strStartsWith keyword "_" then scanResponses_spec rest msg
      else if strContains msg (strLower keyword) then some (.keywordReply reply)
      else scanResponses_spec rest msg

/-- Dispatcher on text messages as the spec words it (claim C3): price
priority, then a case-insensitive first-match keyword scan in table
order. -/
def auto_reply_spec (responses : Dict String) (text : String) :
    Option ReplyAction :=
  let msg := strLower text
  if strContains msg "price" || strStartsWith msg "/price" then some .priceReport
  else scanResponses_spec responses msg

-- ========================
-- welcome handler (lines 151-163)
-- ========================

/-- Built-in fallback welcome template (line 157). -/
def defaultWelcome : String := "👋 Welcome {name}!"

/-- Template instantiation of the welcome handler (lines 157-158): look up
_welcome with the built-in default, then substitute the member mention for
the placeholder by plain substring replacement. -/
def welcome_message (responses : Dict String) (mention : String) : String :=
  let template :=
    match dictGet responses "_welcome" with
    | some t => t
    | none => defaultWelcome
  strReplace template "{name}" mention

/-- Status guard of the welcome handler (line 155). -/
def welcome_fires (oldStatus newStatus : String) : Bool :=
  (oldStatus == "left" || oldStatus == "kicked") && newStatus == "member"

/-- welcome handler (lines 151-163): sends the instantiated template
exactly on a left/kicked → member transition. -/
def welcome (oldStatus newStatus : String) (responses : Dict String)
    (mention : String) : Option String :=
  if welcome_fires oldStatus newStatus then
    some (welcome_message responses mention)
  else none

-- ========================
-- format_market_message (lines 117-127)
-- ========================

/-- Emoji tag per instrument (line 122). -/
def symbolFor (coin : String) : String :=
  if coin = "BTC" then "💰"
  else if coin = "ETH" then "💎"
  else if coin = "BNB" then "🟡"
  else if coin = "SOL" then "🟣"
  else "🏅"

/-- Thousands grouping of a reversed digit list (least significant digit
first): a comma after every third digit. -/
def groupRev : List Char → ℕ → List Char
  | [], _ => []
  | c :: rest, 0 => ',' :: c :: groupRev rest 2
  | c :: rest, k + 1 => c :: groupRev rest k

/-- Decimal digits of a natural number with thousands separators, as in
the Python format specifier with a comma. -/
def fmtComma (n : ℕ) : String :=
  String.mk (groupRev (Nat.toDigits 10 n).reverse 3).reverse

/-- Two-digit zero-padded cent count. -/
def pad2 (n : ℕ) : String :=
  if n < 10 then "0" ++ Nat.repr n else Nat.repr n

/-- The Python float format with comma grouping and two decimals applied
to a price (prices here already carry at most two decimals). -/
def fmtPrice (q : ℚ) : String :=
  (if cents2 q < 0 then "-" else "")
    ++ fmtComma ((cents2 q).natAbs / 100) ++ "." ++ pad2 ((cents2 q).natAbs % 100)

/-- One report line appended per instrument (lines 120-125). -/
def fmtLine (message : String) (entry : String × (Option ℚ × String)) : String :=
  match entry with
  | (coin, (some price, arrow)) =>
      message ++ symbolFor coin ++ " " ++ coin ++ "/USD: $"
        ++ fmtPrice price ++ arrow ++ "\n"
  | (coin, (none, arrow)) =>
      message ++ "⚠️ " ++ coin ++ "/USD: N/A" ++ arrow ++ "\n"

/-- format_market_message (lines 117-127), with the wall-clock timestamp
datetime.now().strftime(...) made an explicit parameter. -/
def format_market_message (now : String) (prices : Dict (Option ℚ × String))
    (title : String) : String :=
  let message := title ++ " (" ++ now ++ "):\n\n"
  (prices.foldl fmtLine message) ++ "\n🚨 Trade Safely!"

/-- The per-instrument body of the report: a function of the price mapping
alone. -/
def formatLines (prices : Dict (Option ℚ × String)) : String :=
  prices.foldl fmtLine ""

-- ========================
-- scheduled_market_update poller (lines 173-187)
-- ========================

/-- One wall-clock observation datetime.now(), truncated to the fields the
poller reads: calendar date (as a day index) and hour/minute. -/
structure PollTime where
  date : ℤ
  hour : ℕ
  minute : ℕ
deriving DecidableEq

/-- A fired-set key (now.date(), hour, minute) as built on line 179. -/
abbrev SlotKey : Type := ℤ × ℕ × ℕ

/-- The key the current observation would fire. -/
def keyOf (t : PollTime) : SlotKey := (t.date, t.hour, t.minute)

/-- The observation minute a key was built from. -/
def timeOfKey (k : SlotKey) : PollTime := ⟨k.1, k.2.1, k.2.2⟩

/-- The (hour, minute) slot of a key. -/
def slotOfKey (k : SlotKey) : ℕ × ℕ := (k.2.1, k.2.2)

/-- target_times (line 174): the static daily broadcast slots. -/
def targetTimes : List (ℕ × ℕ) := [(9, 0), (12, 0), (18, 0)]

/-- Poller state: the sent_today set (as a list) plus, for the
specification, the log of broadcasts sent so far (each broadcast is
identified by its fired key). -/
structure PollState where
  sentToday : List SlotKey
  log : List SlotKey
deriving DecidableEq

/-- Body of the for-loop over target_times (lines 178-184): fire (send a
broadcast and record the key) when the wall clock matches the slot
exactly and the key is not yet in the fired set. -/
def pollSlotStep (t : PollTime) (s : PollState) (hm : ℕ × ℕ) : PollState :=
  if t.hour = hm.1 ∧ t.minute = hm.2 ∧ (t.date, hm.1, hm.2) ∉ s.sentToday then
    { sentToday := (t.date, hm.1, hm.2) :: s.sentToday,
      log := s.log ++ [(t.date, hm.1, hm.2)] }
  else s

/-- One iteration of the while-loop (lines 176-187): scan all slots, then
clear the fired set when the clock reads midnight. -/
def pollStep (st : PollState) (t : PollTime) : PollState :=
  let st1 := targetTimes.foldl (pollSlotStep t) st
  if t.hour = 0 ∧ t.minute = 0 then { st1 with sentToday := [] } else st1

/-- The whole poller run over a trace of wall-clock observations, starting
from the empty fired set. -/
def pollRun (trace : List PollTime) : PollState :=
  trace.foldl pollStep { sentToday := [], log := [] }

/-- The observation u triggers slot key k: u matches some configured slot
exactly and k is the key that firing would record. -/
def matchesAt (u : PollTime) (k : SlotKey) : Prop :=
  (u.hour, u.minute) ∈ targetTimes ∧ keyOf u = k

instance (u : PollTime) (k : SlotKey) : Decidable (matchesAt u k) := by
  unfold matchesAt; exact inferInstance

/-- Chronological order on wall-clock observations, lexicographic on
(date, hour, minute). -/
def tle (a b : PollTime) : Prop :=
  a.date < b.date
    ∨ (a.date = b.date
        ∧ (a.hour < b.hour ∨ (a.hour = b.hour ∧ a.minute ≤ b.minute)))

instance (a b : PollTime) : Decidable (tle a b) := by
  unfold tle; exact inferInstance

-- ========================
-- Concrete data for witnesses and counterexamples
-- ========================

/-- A concrete quote source: BTC at 105, ETH at 50, every other fetch
fails. -/
def fetchScenario : String → Option ℚ := fun ticker =>
  if ticker = "BTC-USD" then some 105
  else if ticker = "ETH-USD" then some 50
  else none

/-- The stored state of the C5 scenario: BTC last seen at 100, no other
instrument observed yet. -/
def scenarioState : BotFiles :=
  { lastPrices := [("BTC", 100)], pricesFile := [("BTC", 100)] }

/-- A one-instrument price batch used to exercise the formatter. -/
def samplePrices : Dict (Option ℚ × String) := [("BTC", (some 100, " ➡️"))]

/-- A chronological trace: two wake-ups in the 9:00 minute of day 0, one
at 12:00, then midnight of day 1 and its 9:00 slot. -/
def witnessTrace : List PollTime :=
  [⟨0, 9, 0⟩, ⟨0, 9, 0⟩, ⟨0, 12, 0⟩, ⟨1, 0, 0⟩, ⟨1, 9, 0⟩]

-- ========================
-- Association list lemmas
-- ========================

theorem dictGet_set_self {α : Type} (d : Dict α) (k : String) (v : α) :
    dictGet (dictSet d k v) k = some v := by
  induction d with
  | nil => simp [dictSet, dictGet]
  | cons p rest ih =>
      obtain ⟨a, b⟩ := p
      by_cases h : a = k
      · subst h; simp [dictSet, dictGet]
      · simp [dictSet, dictGet, h, ih]

theorem dictGet_set_ne {α : Type} (d : Dict α) (k : String) (v : α)
    (k2 : String) (h : k2 ≠ k) :
    dictGet (dictSet d k v) k2 = dictGet d k2 := by
  induction d with
  | nil => simp [dictSet, dictGet, Ne.symm h]
  | cons p rest ih =>
      obtain ⟨a, b⟩ := p
      by_cases ha : a = k
      · subst ha; simp [dictSet, dictGet, Ne.symm h]
      · simp [dictSet, dictGet, ha, ih]

theorem dictSet_keys_new {α : Type} (d : Dict α) (k : String) (v : α)
    (h : dictGet d k = none) :
    (dictSet d k v).map Prod.fst = d.map Prod.fst ++ [k] := by
  induction d with
  | nil => simp [dictSet]
  | cons p rest ih =>
      obtain ⟨a, b⟩ := p
      by_cases ha : a = k
      · simp [dictGet, ha] at h
      · simp [dictGet, ha] at h
        simp [dictSet, ha, ih h]

-- ========================
-- String replacement lemmas
-- ========================

theorem replaceFuel_of_not_contains (pat rep : List Char) :
    ∀ (fuel : ℕ) (s : List Char), listContains pat s = false →
      replaceFuel pat rep fuel s = s := by
  intro fuel
  induction fuel with
  | zero => intro s _; rfl
  | succ n ih =>
      intro s hc
      cases s with
      | nil =>
          cases pat with
          | nil => simp [listContains] at hc
          | cons p ps => simp [replaceFuel, List.isPrefixOf]
      | cons c rest =>
          simp only [listContains, Bool.or_eq_false_iff] at hc
          simp [replaceFuel, hc.1, ih rest hc.2]

theorem strReplace_self (t pat rep : String) (h : strContains t pat = false) :
    strReplace t pat rep = t := by
  unfold strContains at h
  unfold strReplace
  rw [replaceFuel_of_not_contains pat.data rep.data t.data.length t.data h]

-- ========================
-- Claim C6 (reload)
-- ========================

/-- Claim C6: executing the reload command replaces the in-memory response
table exactly with the contents freshly read from the persisted
configuration file, discarding all previous in-memory entries (the result
is independent of the previous table). -/
theorem C6_reload_replaces_table (old1 old2 : Dict String)
    (file : JsonFile (Dict String)) :
    (reload_responses old1 file).1 = load_responses file ∧
    (reload_responses old1 file).1 = (reload_responses old2 file).1 :=
  ⟨rfl, rfl⟩

-- ========================
-- Claim C7 (missing/corrupt responses file)
-- ========================

/-- Claim C7 counterexample: for a corrupt (existing but unparseable)
responses file, the startup existence check leaves the file untouched, so
the default contents are not persisted back to disk as the claim states
(loading does fall back to the empty table). -/
theorem C7_counterexample :
    load_responses (ensure_responses_file JsonFile.corrupt) = ([] : Dict String) ∧
    ensure_responses_file (JsonFile.corrupt : JsonFile (Dict String))
      ≠ JsonFile.ok default_responses :=
  ⟨rfl, by decide⟩

/-- Claim C7 amended: loading never raises and falls back to an empty or
default table, but the defaults are persisted back to disk only when the
file is missing at startup; a corrupt file is left as it is and yields the
empty table. -/
theorem C7_amended_load_fallback :
    (ensure_responses_file JsonFile.missing = JsonFile.ok default_responses ∧
     load_responses (ensure_responses_file JsonFile.missing) = default_responses) ∧
    (ensure_responses_file (JsonFile.corrupt : JsonFile (Dict String)) = JsonFile.corrupt ∧
     load_responses (JsonFile.corrupt : JsonFile (Dict String)) = []) ∧
    (∀ f : JsonFile (Dict String),
       load_responses f = [] ∨ f = JsonFile.ok (load_responses f)) := by
  refine ⟨⟨rfl, rfl⟩, ⟨rfl, rfl⟩, ?_⟩
  intro f
  cases f with
  | missing => exact Or.inl rfl
  | corrupt => exact Or.inl rfl
  | ok d => exact Or.inr rfl

-- ========================
-- Claim C10 (welcome handler)
-- ========================

/-- Claim C10: on a left/kicked → member transition the welcome handler
never fails for lack of a template: without a _welcome key the built-in
default template is used, and a template containing no placeholder is sent
unchanged (substitution is plain substring replacement). -/
theorem C10_welcome_never_missing_template (oldStatus newStatus : String)
    (responses : Dict String) (mention : String)
    (hfire : welcome_fires oldStatus newStatus = true) :
    (dictGet responses "_welcome" = none →
       welcome oldStatus newStatus responses mention
         = some (strReplace defaultWelcome "{name}" mention)) ∧
    (∀ t : String, dictGet responses "_welcome" = some t →
       strContains t "{name}" = false →
       welcome oldStatus newStatus responses mention = some t) := by
  constructor
  · intro h0
    simp [welcome, hfire, welcome_message, h0]
  · intro t ht hnc
    simp [welcome, hfire, welcome_message, ht, strReplace_self t _ _ hnc]

/-- Witness for claim C10 at a concrete transition, table and template. -/
theorem C10_welcome_witness :
    welcome "left" "member" [("_welcome", "Hi all")] "Bob" = some "Hi all" :=
  (C10_welcome_never_missing_template "left" "member" [("_welcome", "Hi all")]
      "Bob" (by decide)).2 "Hi all" (by decide) (by decide)

-- ========================
-- Claim C3 (keyword dispatch)
-- ========================

theorem scan_eq_spec (msg : String) :
    ∀ (responses : Dict String),
      (∀ p ∈ responses, strStartsWith p.1 "_" = false → strLower p.1 = p.1) →
      scanResponses responses msg = scanResponses_spec responses msg := by
  intro responses
  induction responses with
  | nil => intro _; rfl
  | cons p rest ih =>
      intro hlow
      obtain ⟨k, r⟩ := p
      by_cases hu : strStartsWith k "_" = true
      · simp [scanResponses, scanResponses_spec, hu,
              ih (fun q hq hq2 => hlow q (List.mem_cons_of_mem _ hq) hq2)]
      · have hk : strLower k = k :=
          hlow (k, r) (List.mem_cons_self _ _) (by simpa using hu)
        simp [scanResponses, scanResponses_spec, hu, hk,
              ih (fun q hq hq2 => hlow q (List.mem_cons_of_mem _ hq) hq2)]

/-- Claim C3 counterexample: the scan is not case-insensitive in the table
keys — the message alone is lowered, so the key "Hello" never matches the
message "Hello there", while the spec-worded case-insensitive scan
replies. -/
theorem C3_counterexample :
    auto_reply [("Hello", "hi")] "Hello there" = none ∧
    auto_reply_spec [("Hello", "hi")] "Hello there"
      = some (ReplyAction.keywordReply "hi") :=
  ⟨by decide, by decide⟩

/-- Claim C3 amended: the dispatcher behaves exactly as the claim states
(price priority, reserved keys skipped, first match in table order, no
match → no reply) except that keys are matched verbatim against the
lowered message; whenever every non-reserved key is lowercase, it
coincides with the spec-worded case-insensitive dispatcher. -/
theorem C3_amended_dispatch (responses : Dict String) (text : String)
    (hlow : ∀ p ∈ responses, strStartsWith p.1 "_" = false → strLower p.1 = p.1) :
    auto_reply responses text = auto_reply_spec responses text := by
  by_cases hc : (strContains (strLower text) "price"
      || strStartsWith (strLower text) "/price") = true
  · simp [auto_reply, auto_reply_spec, hc]
  · simp [auto_reply, auto_reply_spec, hc,
          scan_eq_spec (strLower text) responses hlow]

/-- Witness for the amended claim C3 at a concrete lowercase table. -/
theorem C3_amended_witness :
    auto_reply [("hello", "hi")] "HELLO there"
      = auto_reply_spec [("hello", "hi")] "HELLO there" :=
  C3_amended_dispatch [("hello", "hi")] "HELLO there" (by decide)

-- ========================
-- get_market_prices fold lemmas
-- ========================

theorem processTicker_fst_ne (f : String → Option ℚ)
    (acc : Dict (Option ℚ × String) × Dict ℚ) (nt : String × String)
    (name : String) (h : name ≠ nt.1) :
    dictGet (processTicker f acc nt).1 name = dictGet acc.1 name := by
  cases hf : f nt.2 <;> simp [processTicker, hf, dictGet_set_ne _ _ _ _ h]

theorem processTicker_snd_ne (f : String → Option ℚ)
    (acc : Dict (Option ℚ × String) × Dict ℚ) (nt : String × String)
    (name : String) (h : name ≠ nt.1) :
    dictGet (processTicker f acc nt).2 name = dictGet acc.2 name := by
  cases hf : f nt.2 <;> simp [processTicker, hf, dictGet_set_ne _ _ _ _ h]

theorem processTicker_keys (f : String → Option ℚ)
    (acc : Dict (Option ℚ × String) × Dict ℚ) (nt : String × String)
    (h : dictGet acc.1 nt.1 = none) :
    (processTicker f acc nt).1.map Prod.fst = acc.1.map Prod.fst ++ [nt.1] := by
  cases hf : f nt.2 <;> simp [processTicker, hf, dictSet_keys_new _ _ _ h]

theorem fold_frame (f : String → Option ℚ) :
    ∀ (ts : List (String × String)) (acc : Dict (Option ℚ × String) × Dict ℚ)
      (name : String), name ∉ ts.map Prod.fst →
      dictGet (ts.foldl (processTicker f) acc).1 name = dictGet acc.1 name ∧
      dictGet (ts.foldl (processTicker f) acc).2 name = dictGet acc.2 name := by
  intro ts
  induction ts with
  | nil => intro acc name _; exact ⟨rfl, rfl⟩
  | cons nt rest ih =>
      intro acc name h
      simp only [List.map_cons, List.mem_cons, not_or] at h
      rw [List.foldl_cons]
      obtain ⟨h1, h2⟩ := ih (processTicker f acc nt) name h.2
      rw [h1, h2, processTicker_fst_ne f acc nt name h.1,
          processTicker_snd_ne f acc nt name h.1]
      exact ⟨rfl, rfl⟩

theorem fold_success (f : String → Option ℚ) :
    ∀ (ts : List (String × String)) (acc : Dict (Option ℚ × String) × Dict ℚ)
      (name tk : String) (c : ℚ),
      (ts.map Prod.fst).Nodup → (name, tk) ∈ ts → f tk = some c →
      dictGet (ts.foldl (processTicker f) acc).1 name
        = some (some (round2 c), arrowFor (dictGet acc.2 name) (round2 c)) ∧
      dictGet (ts.foldl (processTicker f) acc).2 name = some (round2 c) := by
  intro ts
  induction ts with
  | nil => intro acc name tk c _ hm _; exact absurd hm (List.not_mem_nil _)
  | cons nt rest ih =>
      intro acc name tk c hnd hmem hf
      obtain ⟨n0, t0⟩ := nt
      simp only [List.map_cons, List.nodup_cons] at hnd
      rw [List.foldl_cons]
      rcases List.mem_cons.mp hmem with heq | hmem2
      · injection heq with hn ht
        subst hn
        subst ht
        have hrest : name ∉ rest.map Prod.fst := by simpa using hnd.1
        obtain ⟨g1, g2⟩ :=
          fold_frame f rest (processTicker f acc (name, tk)) name hrest
        rw [g1, g2]
        constructor
        · simp [processTicker, hf, dictGet_set_self]
        · simp [processTicker, hf, dictGet_set_self]
      · have hne : name ≠ n0 := by
          intro he
          apply hnd.1
          have : name ∈ rest.map Prod.fst :=
            List.mem_map.mpr ⟨(name, tk), hmem2, rfl⟩
          simpa [he] using this
        have hsnd := processTicker_snd_ne f acc (n0, t0) name hne
        have hmain := ih (processTicker f acc (n0, t0)) name tk c hnd.2 hmem2 hf
        rw [hsnd] at hmain
        exact hmain

theorem fold_fail (f : String → Option ℚ) :
    ∀ (ts : List (String × String)) (acc : Dict (Option ℚ × String) × Dict ℚ)
      (name tk : String),
      (ts.map Prod.fst).Nodup → (name, tk) ∈ ts → f tk = none →
      dictGet (ts.foldl (processTicker f) acc).1 name = some (none, " ❓") ∧
      dictGet (ts.foldl (processTicker f) acc).2 name = dictGet acc.2 name := by
  intro ts
  induction ts with
  | nil => intro acc name tk _ hm _; exact absurd hm (List.not_mem_nil _)
  | cons nt rest ih =>
      intro acc name tk hnd hmem hf
      obtain ⟨n0, t0⟩ := nt
      simp only [List.map_cons, List.nodup_cons] at hnd
      rw [List.foldl_cons]
      rcases List.mem_cons.mp hmem with heq | hmem2
      · injection heq with hn ht
        subst hn
        subst ht
        have hrest : name ∉ rest.map Prod.fst := by simpa using hnd.1
        obtain ⟨g1, g2⟩ :=
          fold_frame f rest (processTicker f acc (name, tk)) name hrest
        rw [g1, g2]
        constructor
        · simp [processTicker, hf, dictGet_set_self]
        · simp [processTicker, hf]
      · have hne : name ≠ n0 := by
          intro he
          apply hnd.1
          have : name ∈ rest.map Prod.fst :=
            List.mem_map.mpr ⟨(name, tk), hmem2, rfl⟩
          simpa [he] using this
        have hsnd := processTicker_snd_ne f acc (n0, t0) name hne
        have hmain := ih (processTicker f acc (n0, t0)) name tk hnd.2 hmem2 hf
        rw [hsnd] at hmain
        exact hmain

theorem fold_keys (f : String → Option ℚ) :
    ∀ (ts : List (String × String)) (acc : Dict (Option ℚ × String) × Dict ℚ),
      (ts.map Prod.fst).Nodup →
      (∀ n ∈ ts.map Prod.fst, dictGet acc.1 n = none) →
      (ts.foldl (processTicker f) acc).1.map Prod.fst
        = acc.1.map Prod.fst ++ ts.map Prod.fst := by
  intro ts
  induction ts with
  | nil => intro acc _ _; simp
  | cons nt rest ih =>
      intro acc hnd hnone
      simp only [List.map_cons, List.nodup_cons] at hnd
      rw [List.foldl_cons]
      have h0 : dictGet acc.1 nt.1 = none := hnone nt.1 (by simp)
      have hnone2 : ∀ n ∈ rest.map Prod.fst,
          dictGet (processTicker f acc nt).1 n = none := by
        intro n hn
        have hne : n ≠ nt.1 := fun he => hnd.1 (he ▸ hn)
        rw [processTicker_fst_ne f acc nt n hne]
        exact hnone n (by simp [hn])
      rw [ih (processTicker f acc nt) hnd.2 hnone2,
          processTicker_keys f acc nt h0, List.append_assoc]
      simp

-- ========================
-- Claim C1 (trend per instrument)
-- ========================

/-- Claim C1: for every configured instrument whose fetch succeeds in an
invocation of get_market_prices, the reported trend is the first-seen
arrow when the stored last-price table has no entry for it, and otherwise
the up/down/flat arrow obtained by comparing the rounded new price with
the stored last price. -/
theorem C1_trend_per_instrument (f : String → Option ℚ) (st : BotFiles)
    (name ticker : String) (c : ℚ)
    (hmem : (name, ticker) ∈ TICKERS) (hf : f ticker = some c) :
    (dictGet st.lastPrices name = none →
       dictGet (get_market_prices f st).1 name = some (some (round2 c), " ➡️")) ∧
    (∀ old : ℚ, dictGet st.lastPrices name = some old →
       dictGet (get_market_prices f st).1 name
         = some (some (round2 c),
             if round2 c > old then " 🔼"
             else if round2 c < old then " 🔽" else " ➡️")) := by
  have hnd : (TICKERS.map Prod.fst).Nodup := by decide
  obtain ⟨h1, h2⟩ :=
    fold_success f TICKERS ([], st.lastPrices) name ticker c hnd hmem hf
  have hget : dictGet (get_market_prices f st).1 name
      = some (some (round2 c), arrowFor (dictGet st.lastPrices name) (round2 c)) := h1
  constructor
  · intro h0
    rw [hget, h0]
    rfl
  · intro old hold
    rw [hget, hold]
    rfl

/-- Witness for claim C1: in the concrete scenario, BTC (stored at 100,
fetched at 105) is reported with the comparison arrow. -/
theorem C1_witness :
    dictGet (get_market_prices fetchScenario scenarioState).1 "BTC"
      = some (some (round2 105),
          if round2 105 > (100 : ℚ) then " 🔼"
          else if round2 105 < (100 : ℚ) then " 🔽" else " ➡️") :=
  (C1_trend_per_instrument fetchScenario scenarioState "BTC" "BTC-USD" 105
      (by decide) (by decide)).2 100 (by decide)

-- ========================
-- Claim C2 (failures contained, batch total)
-- ========================

/-- Claim C2: a per-instrument fetch failure is contained — the failed
instrument is recorded with the unavailable sentinel (None, ❓), the other
instruments are still processed, and the batch has exactly one entry per
configured instrument, in order. -/
theorem C2_fetch_failure_contained (f : String → Option ℚ) (st : BotFiles) :
    ((get_market_prices f st).1.map Prod.fst = TICKERS.map Prod.fst) ∧
    (∀ name ticker, (name, ticker) ∈ TICKERS → f ticker = none →
       dictGet (get_market_prices f st).1 name = some (none, " ❓")) := by
  constructor
  · have h := fold_keys f TICKERS ([], st.lastPrices) (by decide) (fun n _ => rfl)
    simpa using h
  · intro name ticker hmem hf
    exact (fold_fail f TICKERS ([], st.lastPrices) name ticker (by decide) hmem hf).1

/-- Witness for claim C2: in the concrete scenario the batch keys are the
ticker names and the failed BNB fetch yields the sentinel. -/
theorem C2_witness :
    ((get_market_prices fetchScenario scenarioState).1.map Prod.fst
        = TICKERS.map Prod.fst) ∧
    dictGet (get_market_prices fetchScenario scenarioState).1 "BNB"
      = some (none, " ❓") :=
  ⟨(C2_fetch_failure_contained fetchScenario scenarioState).1,
   (C2_fetch_failure_contained fetchScenario scenarioState).2 "BNB" "BNB-USD"
     (by decide) (by decide)⟩

-- ========================
-- Claim C9 (failed fetch leaves stored price intact)
-- ========================

/-- Claim C9: an instrument whose fetch fails keeps exactly its previous
entry in the stored last-price table and in the file persisted at the end
of the call, so the next success compares against the last successfully
observed price; names outside the configured set are never touched. -/
theorem C9_failed_fetch_frame (f : String → Option ℚ) (st : BotFiles) :
    (∀ name ticker, (name, ticker) ∈ TICKERS → f ticker = none →
       dictGet (get_market_prices f st).2.lastPrices name
           = dictGet st.lastPrices name ∧
       dictGet (get_market_prices f st).2.pricesFile name
           = dictGet st.lastPrices name) ∧
    (∀ name, name ∉ TICKERS.map Prod.fst →
       dictGet (get_market_prices f st).2.lastPrices name
           = dictGet st.lastPrices name) := by
  constructor
  · intro name ticker hmem hf
    have h2 :=
      (fold_fail f TICKERS ([], st.lastPrices) name ticker (by decide) hmem hf).2
    exact ⟨h2, h2⟩
  · intro name hname
    exact (fold_frame f TICKERS ([], st.lastPrices) name hname).2

/-- Witness for claim C9: the failed BNB fetch leaves the stored BNB entry
(and the persisted file) unchanged in the concrete scenario. -/
theorem C9_witness :
    dictGet (get_market_prices fetchScenario scenarioState).2.lastPrices "BNB"
      = dictGet scenarioState.lastPrices "BNB" ∧
    dictGet (get_market_prices fetchScenario scenarioState).2.pricesFile "BNB"
      = dictGet scenarioState.lastPrices "BNB" :=
  (C9_failed_fetch_frame fetchScenario scenarioState).1 "BNB" "BNB-USD"
    (by decide) (by decide)

-- ========================
-- Claim C5 (persistence of the full observation set)
-- ========================

/-- Claim C5: after every invocation the full updated observation set is
written to the price file, overwriting it (the file equals the updated
last-price table); in the concrete scenario (BTC stored at 100, fetch
returning BTC=105 and ETH=50, others failing) the trends are up for BTC
and first-seen for ETH and the persisted file maps BTC to 105 and ETH to
50. -/
theorem C5_persisted_observations :
    (∀ (f : String → Option ℚ) (st : BotFiles),
       (get_market_prices f st).2.pricesFile
         = (get_market_prices f st).2.lastPrices) ∧
    ((get_market_prices fetchScenario scenarioState).1
        = [("BTC", (some 105, " 🔼")), ("ETH", (some 50, " ➡️")),
           ("BNB", (none, " ❓")), ("SOL", (none, " ❓")),
           ("XAU", (none, " ❓"))] ∧
     (get_market_prices fetchScenario scenarioState).2.pricesFile
        = [("BTC", 105), ("ETH", 50)]) :=
  ⟨fun _ _ => rfl, by decide, by decide⟩

-- ========================
-- Claim C8 (formatter purity)
-- ========================

theorem fmtLine_factor (m : String) (p : String × (Option ℚ × String)) :
    fmtLine m p = m ++ fmtLine "" p := by
  obtain ⟨coin, pr, ar⟩ := p
  cases pr <;> simp [fmtLine, String.append_assoc]

theorem foldl_fmtLine_factor :
    ∀ (prices : Dict (Option ℚ × String)) (m : String),
      prices.foldl fmtLine m = m ++ prices.foldl fmtLine "" := by
  intro prices
  induction prices with
  | nil => intro m; simp
  | cons p rest ih =>
      intro m
      simp only [List.foldl_cons]
      rw [ih (fmtLine m p), ih (fmtLine "" p), fmtLine_factor m p,
          String.append_assoc]

/-- Claim C8 counterexample: two invocations of the formatter with the
same price mapping and the same title, but reading different wall-clock
timestamps, return different text — the returned block is not a function
of the mapping and title alone. -/
theorem C8_counterexample :
    format_market_message "2024-01-01 09:00:00" samplePrices "💹 Live Market Prices"
      ≠ format_market_message "2024-01-01 09:00:01" samplePrices
          "💹 Live Market Prices" := by
  decide

/-- Claim C8 amended: the formatter is a pure function of the wall-clock
timestamp together with the mapping and the title, and the timestamp
occurs only in the header line — the per-instrument body and the fixed
trailing disclaimer are a function of the mapping alone. -/
theorem C8_formatter_pure (now title : String)
    (prices : Dict (Option ℚ × String)) :
    format_market_message now prices title
      = title ++ " (" ++ now ++ "):\n\n" ++ formatLines prices
          ++ "\n🚨 Trade Safely!" := by
  simp only [format_market_message, formatLines]
  rw [foldl_fmtLine_factor]

-- ========================
-- Poller lemmas
-- ========================

theorem tle_refl (a : PollTime) : tle a a := by
  simp [tle]

theorem tle_antisymm {a b : PollTime} (h1 : tle a b) (h2 : tle b a) : a = b := by
  obtain ⟨ad, ah, am⟩ := a
  obtain ⟨bd, bh, bm⟩ := b
  simp only [tle] at h1 h2
  simp only [PollTime.mk.injEq]
  omega

theorem timeOfKey_keyOf (t : PollTime) : timeOfKey (keyOf t) = t := rfl

theorem pollSlots_inv (t : PollTime) (future : List PollTime)
    (hfut : ∀ u ∈ future, tle t u) :
    ∀ (slots : List (ℕ × ℕ)) (st : PollState),
      (∀ hm ∈ slots, hm ∈ targetTimes) →
      (∀ k : SlotKey, st.log.count k ≤ 1) →
      (∀ k ∈ st.log, k ∈ st.sentToday ∨ ∀ u ∈ t :: future, ¬ matchesAt u k) →
      (∀ k ∈ st.sentToday,
         slotOfKey k ∈ targetTimes ∧ ∀ u ∈ t :: future, tle (timeOfKey k) u) →
      (∀ k : SlotKey, (slots.foldl (pollSlotStep t) st).log.count k ≤ 1) ∧
      (∀ k ∈ (slots.foldl (pollSlotStep t) st).log,
         k ∈ (slots.foldl (pollSlotStep t) st).sentToday ∨
           ∀ u ∈ t :: future, ¬ matchesAt u k) ∧
      (∀ k ∈ (slots.foldl (pollSlotStep t) st).sentToday,
         slotOfKey k ∈ targetTimes ∧ ∀ u ∈ t :: future, tle (timeOfKey k) u) := by
  intro slots
  induction slots with
  | nil => intro st _ h1 h2 h3; exact ⟨h1, h2, h3⟩
  | cons hm rest ih =>
      intro st hsl h1 h2 h3
      simp only [List.foldl_cons]
      by_cases hg : t.hour = hm.1 ∧ t.minute = hm.2
          ∧ (t.date, hm.1, hm.2) ∉ st.sentToday
      · obtain ⟨hh, hmn, hnot⟩ := hg
        have hkey : (t.date, hm.1, hm.2) = keyOf t := by
          simp [keyOf, hh, hmn]
        have hhm : (t.hour, t.minute) = hm := by rw [hh, hmn]
        have hmt : matchesAt t (keyOf t) := by
          refine ⟨?_, rfl⟩
          rw [hhm]
          exact hsl hm (List.mem_cons_self _ _)
        have hstep : pollSlotStep t st hm
            = { sentToday := keyOf t :: st.sentToday,
                log := st.log ++ [keyOf t] } := by
          unfold pollSlotStep
          rw [if_pos ⟨hh, hmn, hnot⟩, hkey]
        rw [hstep]
        apply ih
        · exact fun x hx => hsl x (List.mem_cons_of_mem _ hx)
        · intro k
          by_cases hk : k = keyOf t
          · subst hk
            have hnotlog : keyOf t ∉ st.log := by
              intro hin
              rcases h2 _ hin with hs | hnm
              · rw [hkey] at hnot
                exact hnot hs
              · exact hnm t (List.mem_cons_self _ _) hmt
            rw [List.count_append, List.count_eq_zero.mpr hnotlog]
            simp
          · have heq : (st.log ++ [keyOf t]).count k = st.log.count k := by
              simp [List.count_append, List.count_cons, hk]
            rw [heq]
            exact h1 k
        · intro k hk
          rcases List.mem_append.mp hk with hkl | hkr
          · rcases h2 k hkl with hs | hnm
            · exact Or.inl (List.mem_cons_of_mem _ hs)
            · exact Or.inr hnm
          · have hke : k = keyOf t := by simpa using hkr
            subst hke
            exact Or.inl (List.mem_cons_self _ _)
        · intro k hk
          rcases List.mem_cons.mp hk with hke | hs
          · subst hke
            refine ⟨hmt.1, ?_⟩
            intro u hu
            rcases List.mem_cons.mp hu with hue | hu2
            · rw [timeOfKey_keyOf, hue]
              exact tle_refl t
            · rw [timeOfKey_keyOf]
              exact hfut u hu2
          · exact h3 k hs
      · have hstep : pollSlotStep t st hm = st := by
          unfold pollSlotStep
          exact if_neg hg
        rw [hstep]
        exact ih st (fun x hx => hsl x (List.mem_cons_of_mem _ hx)) h1 h2 h3

theorem pollStep_inv (t : PollTime) (future : List PollTime)
    (hfut : ∀ u ∈ future, tle t u) (st : PollState)
    (h1 : ∀ k : SlotKey, st.log.count k ≤ 1)
    (h2 : ∀ k ∈ st.log, k ∈ st.sentToday ∨ ∀ u ∈ t :: future, ¬ matchesAt u k)
    (h3 : ∀ k ∈ st.sentToday,
        slotOfKey k ∈ targetTimes ∧ ∀ u ∈ t :: future, tle (timeOfKey k) u) :
    (∀ k : SlotKey, (pollStep st t).log.count k ≤ 1) ∧
    (∀ k ∈ (pollStep st t).log,
        k ∈ (pollStep st t).sentToday ∨ ∀ u ∈ future, ¬ matchesAt u k) ∧
    (∀ k ∈ (pollStep st t).sentToday,
        slotOfKey k ∈ targetTimes ∧ ∀ u ∈ future, tle (timeOfKey k) u) := by
  obtain ⟨g1, g2, g3⟩ :=
    pollSlots_inv t future hfut targetTimes st (fun _ h => h) h1 h2 h3
  simp only [pollStep]
  by_cases hmid : t.hour = 0 ∧ t.minute = 0
  · rw [if_pos hmid]
    refine ⟨g1, ?_, ?_⟩
    · intro k hk
      right
      intro u hu hmm
      rcases g2 k hk with hs | hnm
      · obtain ⟨hslot, htle⟩ := g3 k hs
        obtain ⟨humem, hkeq⟩ := hmm
        have hut : u = timeOfKey k := by rw [← hkeq]; rfl
        have htk : tle (timeOfKey k) t := htle t (List.mem_cons_self _ _)
        have htu : tle t (timeOfKey k) := hut ▸ hfut u hu
        have heqt : timeOfKey k = t := tle_antisymm htk htu
        have hsk : slotOfKey k = (0, 0) := by
          have e1 : k.2.1 = t.hour := congrArg PollTime.hour heqt
          have e2 : k.2.2 = t.minute := congrArg PollTime.minute heqt
          simp [slotOfKey, e1, e2, hmid.1, hmid.2]
        rw [hsk] at hslot
        exact absurd hslot (by decide)
      · exact hnm u (List.mem_cons_of_mem _ hu) hmm
    · intro k hk
      exact absurd hk (List.not_mem_nil k)
  · rw [if_neg hmid]
    exact ⟨g1,
      fun k hk => (g2 k hk).imp id
        (fun h u hu => h u (List.mem_cons_of_mem _ hu)),
      fun k hk => ⟨(g3 k hk).1,
        fun u hu => (g3 k hk).2 u (List.mem_cons_of_mem _ hu)⟩⟩

theorem pollRun_count_aux :
    ∀ (trace : List PollTime) (st : PollState),
      List.Pairwise tle trace →
      (∀ k : SlotKey, st.log.count k ≤ 1) →
      (∀ k ∈ st.log, k ∈ st.sentToday ∨ ∀ u ∈ trace, ¬ matchesAt u k) →
      (∀ k ∈ st.sentToday,
          slotOfKey k ∈ targetTimes ∧ ∀ u ∈ trace, tle (timeOfKey k) u) →
      ∀ k : SlotKey, (trace.foldl pollStep st).log.count k ≤ 1 := by
  intro trace
  induction trace with
  | nil => intro st _ h1 _ _ k; exact h1 k
  | cons t rest ih =>
      intro st hp h1 h2 h3 k
      rw [List.foldl_cons]
      have hpc := List.pairwise_cons.mp hp
      obtain ⟨g1, g2, g3⟩ := pollStep_inv t rest hpc.1 st h1 h2 h3
      exact ih (pollStep st t) hpc.2 g1 g2 g3 k

theorem pollSlots_mem (t : PollTime) :
    ∀ (slots : List (ℕ × ℕ)) (st : PollState),
      (∀ k ∈ st.sentToday, k ∈ st.log) →
      (∀ k ∈ (slots.foldl (pollSlotStep t) st).sentToday,
         k ∈ (slots.foldl (pollSlotStep t) st).log) ∧
      (∀ k : SlotKey,
         k ∈ (slots.foldl (pollSlotStep t) st).log ↔
           k ∈ st.log ∨ (keyOf t = k ∧ (t.hour, t.minute) ∈ slots)) := by
  intro slots
  induction slots with
  | nil =>
      intro st hsub
      exact ⟨hsub, fun k => by simp⟩
  | cons hm rest ih =>
      intro st hsub
      simp only [List.foldl_cons]
      by_cases hg : t.hour = hm.1 ∧ t.minute = hm.2
          ∧ (t.date, hm.1, hm.2) ∉ st.sentToday
      · obtain ⟨hh, hmn, hnot⟩ := hg
        have hkey : (t.date, hm.1, hm.2) = keyOf t := by
          simp [keyOf, hh, hmn]
        have hhm : (t.hour, t.minute) = hm := by rw [hh, hmn]
        have hstep : pollSlotStep t st hm
            = { sentToday := keyOf t :: st.sentToday,
                log := st.log ++ [keyOf t] } := by
          unfold pollSlotStep
          rw [if_pos ⟨hh, hmn, hnot⟩, hkey]
        rw [hstep]
        have hsub2 : ∀ k ∈ (PollState.mk (keyOf t :: st.sentToday)
            (st.log ++ [keyOf t])).sentToday,
            k ∈ (PollState.mk (keyOf t :: st.sentToday)
              (st.log ++ [keyOf t])).log := by
          intro k hk
          rcases List.mem_cons.mp hk with hke | hks
          · subst hke
            exact List.mem_append.mpr (Or.inr (List.mem_cons_self _ _))
          · exact List.mem_append.mpr (Or.inl (hsub k hks))
        obtain ⟨ih1, ih2⟩ := ih _ hsub2
        refine ⟨ih1, fun k => ?_⟩
        rw [ih2 k]
        simp only [List.mem_append, List.mem_cons, List.not_mem_nil, or_false]
        constructor
        · rintro ((hl | he) | ⟨hke, hsl⟩)
          · exact Or.inl hl
          · exact Or.inr ⟨he.symm, Or.inl hhm⟩
          · exact Or.inr ⟨hke, Or.inr hsl⟩
        · rintro (hl | ⟨hke, _⟩)
          · exact Or.inl (Or.inl hl)
          · exact Or.inl (Or.inr hke.symm)
      · have hstep : pollSlotStep t st hm = st := by
          unfold pollSlotStep
          exact if_neg hg
        rw [hstep]
        obtain ⟨ih1, ih2⟩ := ih st hsub
        refine ⟨ih1, fun k => ?_⟩
        rw [ih2 k]
        simp only [List.mem_cons]
        constructor
        · rintro (hl | ⟨hke, hsl⟩)
          · exact Or.inl hl
          · exact Or.inr ⟨hke, Or.inr hsl⟩
        · rintro (hl | ⟨hke, hcase⟩)
          · exact Or.inl hl
          · rcases hcase with heqhm | hr
            · have hh : t.hour = hm.1 := congrArg Prod.fst heqhm
              have hmn : t.minute = hm.2 := congrArg Prod.snd heqhm
              have hks : (t.date, hm.1, hm.2) ∈ st.sentToday := by
                by_contra hns
                exact hg ⟨hh, hmn, hns⟩
              have hkey : (t.date, hm.1, hm.2) = keyOf t := by
                simp [keyOf, hh, hmn]
              rw [hkey] at hks
              exact Or.inl (hsub k (hke ▸ hks))
            · exact Or.inr ⟨hke, hr⟩

theorem pollStep_mem (t : PollTime) (st : PollState)
    (hsub : ∀ k ∈ st.sentToday, k ∈ st.log) :
    (∀ k ∈ (pollStep st t).sentToday, k ∈ (pollStep st t).log) ∧
    (∀ k : SlotKey, k ∈ (pollStep st t).log ↔ k ∈ st.log ∨ matchesAt t k) := by
  obtain ⟨g1, g2⟩ := pollSlots_mem t targetTimes st hsub
  simp only [pollStep]
  by_cases hmid : t.hour = 0 ∧ t.minute = 0
  · rw [if_pos hmid]
    refine ⟨fun k hk => absurd hk (List.not_mem_nil k), fun k => ?_⟩
    constructor
    · intro hk
      rcases (g2 k).mp hk with hl | ⟨hke, hsl⟩
      · exact Or.inl hl
      · exact Or.inr ⟨hsl, hke⟩
    · intro h
      apply (g2 k).mpr
      rcases h with hl | ⟨hsl, hke⟩
      · exact Or.inl hl
      · exact Or.inr ⟨hke, hsl⟩
  · rw [if_neg hmid]
    refine ⟨g1, fun k => ?_⟩
    constructor
    · intro hk
      rcases (g2 k).mp hk with hl | ⟨hke, hsl⟩
      · exact Or.inl hl
      · exact Or.inr ⟨hsl, hke⟩
    · intro h
      apply (g2 k).mpr
      rcases h with hl | ⟨hsl, hke⟩
      · exact Or.inl hl
      · exact Or.inr ⟨hke, hsl⟩

theorem pollRun_mem_aux :
    ∀ (trace : List PollTime) (st : PollState),
      (∀ k ∈ st.sentToday, k ∈ st.log) →
      ∀ k : SlotKey, k ∈ (trace.foldl pollStep st).log ↔
        k ∈ st.log ∨ ∃ u ∈ trace, matchesAt u k := by
  intro trace
  induction trace with
  | nil => intro st _ k; simp
  | cons t rest ih =>
      intro st hsub k
      rw [List.foldl_cons]
      obtain ⟨hsub2, hmem⟩ := pollStep_mem t st hsub
      rw [ih (pollStep st t) hsub2 k, hmem k]
      constructor
      · rintro ((hl | hm) | ⟨u, hu, hmu⟩)
        · exact Or.inl hl
        · exact Or.inr ⟨t, List.mem_cons_self _ _, hm⟩
        · exact Or.inr ⟨u, List.mem_cons_of_mem _ hu, hmu⟩
      · rintro (hl | ⟨u, hu, hmu⟩)
        · exact Or.inl (Or.inl hl)
        · rcases List.mem_cons.mp hu with hue | hu2
          · subst hue
            exact Or.inl (Or.inr hmu)
          · exact Or.inr ⟨u, hu2, hmu⟩

-- ========================
-- Claim C4 (one broadcast per slot per day)
-- ========================

/-- Claim C4: along any chronologically ordered trace of wall-clock
observations, the poller broadcasts each (date, hour, minute) slot key at
most once, and it broadcasts a key exactly when some observation of the
trace matches a configured slot on that calendar day — in particular a
slot fires only on an exact hour-and-minute match with an unfired key,
and it fires again on the next calendar day. -/
theorem C4_poller_once_per_slot_per_day (trace : List PollTime)
    (hchron : List.Pairwise tle trace) :
    (∀ k : SlotKey, (pollRun trace).log.count k ≤ 1) ∧
    (∀ k : SlotKey,
       k ∈ (pollRun trace).log ↔ ∃ u ∈ trace, matchesAt u k) := by
  constructor
  · exact pollRun_count_aux trace ⟨[], []⟩ hchron (fun k => by simp)
      (fun k hk => absurd hk (List.not_mem_nil k))
      (fun k hk => absurd hk (List.not_mem_nil k))
  · intro k
    have h := pollRun_mem_aux trace ⟨[], []⟩
      (fun k hk => absurd hk (List.not_mem_nil k)) k
    simpa using h

/-- Witness for claim C4 on a concrete chronological trace with a repeated
9:00 wake-up, a midnight reset, and a next-day 9:00 observation. -/
theorem C4_witness :
    List.Pairwise tle witnessTrace ∧
    (pollRun witnessTrace).log.count (0, 9, 0) ≤ 1 ∧
    ((1, 9, 0) ∈ (pollRun witnessTrace).log ↔
      ∃ u ∈ witnessTrace, matchesAt u (1, 9, 0)) :=
  ⟨by decide,
   (C4_poller_once_per_slot_per_day witnessTrace (by decide)).1 (0, 9, 0),
   (C4_poller_once_per_slot_per_day witnessTrace (by decide)).2 (1, 9, 0)⟩

end AutoBot

